import Mathlib

/-!
# Verification of the agenthelper resolution/orchestration engine

Shallow embedding of the Go implementation (`internal/manager`,
`internal/platform`, `internal/config`) of the coding-agents-helper
repository, together with the parts of its PowerShell twin
(`CodingAgentsHelper.ps1`) that the claims reference.

Go strings in the embedded fragment are ASCII command lines and version
strings, so Go's byte-indexed strings are modelled as `List Char` /
`String` with character indexing.
-/

namespace AgentHelper

/-! ## Masterminds/semver v3 (the library `Manager.CompareVersions` uses)

`semver.NewVersion` matches the anchored regex
`^v?([0-9]+)(\.[0-9]+)?(\.[0-9]+)?(-([0-9A-Za-z-]+(\.[0-9A-Za-z-]+)*))?(\+([0-9A-Za-z-]+(\.[0-9A-Za-z-]+)*))?$`
and parses the three numeric groups with `strconv.ParseUint(_, 10, 64)`.
Because the prerelease charset excludes `.` delimiters inside a part and
excludes `+`, the regex decomposition is deterministic: the prerelease
group extends exactly to the first `+` (or end of input).  The embedding
below parses that grammar directly. -/

/-- A parsed semantic version: `major.minor.patch` plus the raw prerelease
and build-metadata strings, as in `semver.Version`. -/
structure SemVer where
  major : Nat
  minor : Nat
  patch : Nat
  pre : String
  metadata : String
  deriving Repr, DecidableEq

/-- Character class `[0-9A-Za-z-]` of prerelease/metadata identifiers. -/
def isPreChar (c : Char) : Bool :=
  c.isDigit || c.isAlpha || c = '-'

/-- Numeric value of a digit run (base 10). -/
def digitsVal (cs : List Char) : Nat :=
  cs.foldl (fun acc c => acc * 10 + (c.toNat - 48)) 0

/-- `strconv.ParseUint(s, 10, 64)` on a capture group that is a non-empty
digit run: succeeds exactly when the value fits in a `uint64`. -/
def parseUint64 (cs : List Char) : Option Nat :=
  if cs.isEmpty then none
  else if digitsVal cs < 2 ^ 64 then some (digitsVal cs) else none

/-- `strconv.ParseInt(s, 10, 64)`: optional sign, non-empty digit run,
value within the `int64` range. -/
def parseInt64 (s : String) : Option Int :=
  let (sign, ds) : Int × List Char :=
    match s.data with
    | '+' :: r => (1, r)
    | '-' :: r => (-1, r)
    | r => (1, r)
  if ds.isEmpty then none
  else if ds.all Char.isDigit then
    let v : Int := sign * (digitsVal ds : Int)
    if -(2 ^ 63) ≤ v ∧ v ≤ 2 ^ 63 - 1 then some v else none
  else none

/-- Split a character list at `.` separators (like `strings.Split _ "."`:
the empty input yields one empty field). -/
def splitOnDot : List Char → List (List Char)
  | [] => [[]]
  | c :: rest =>
    if c = '.' then [] :: splitOnDot rest
    else
      match splitOnDot rest with
      | [] => [[c]]
      | f :: fs => (c :: f) :: fs

/-- A prerelease or metadata group: one or more non-empty runs of
`[0-9A-Za-z-]`, separated by `.`. -/
def isDottedIdent (cs : List Char) : Bool :=
  (splitOnDot cs).all fun p => !p.isEmpty && p.all isPreChar

/-- Split at the first `'+'`, the boundary between the prerelease group
and the build-metadata group. -/
def splitAtPlus : List Char → List Char × Option (List Char)
  | [] => ([], none)
  | c :: rest =>
    if c = '+' then ([], some rest)
    else
      let (l, r) := splitAtPlus rest
      (c :: l, r)

/-- The optional `(\.[0-9]+)?` group: consumes `'.'` followed by a
non-empty digit run, otherwise leaves the input untouched. -/
def parseDotNum (cs : List Char) : Option (List Char) × List Char :=
  match cs with
  | [] => (none, [])
  | c :: rest =>
    if c = '.' then
      let (d, r) := rest.span Char.isDigit
      if d.isEmpty then (none, cs) else (some d, r)
    else (none, cs)

/-- The trailing `(-pre)?(\+meta)?$` portion of the version grammar. -/
def parseTail (cs : List Char) : Option (String × String) :=
  match cs with
  | [] => some ("", "")
  | c :: rest =>
    if c = '-' then
      match splitAtPlus rest with
      | (p, none) =>
        if isDottedIdent p then some (String.mk p, "") else none
      | (p, some m) =>
        if isDottedIdent p && isDottedIdent m then
          some (String.mk p, String.mk m)
        else none
    else if c = '+' then
      if isDottedIdent rest then some ("", String.mk rest) else none
    else none

/-- `semver.NewVersion` on the character list after the optional leading
`v` of the regex has been handled. -/
def parseCore (cs : List Char) : Option SemVer :=
  let (majD, r1) := cs.span Char.isDigit
  if majD.isEmpty then none
  else
    let (minD, r2) := parseDotNum r1
    let (patD, r3) := parseDotNum r2
    match parseTail r3 with
    | none => none
    | some (pre, meta) =>
      match parseUint64 majD with
      | none => none
      | some maj =>
        match minD with
        | none =>
          match patD with
          | none => some ⟨maj, 0, 0, pre, meta⟩
          | some pd =>
            match parseUint64 pd with
            | none => none
            | some pat => some ⟨maj, 0, pat, pre, meta⟩
        | some md =>
          match parseUint64 md with
          | none => none
          | some mi =>
            match patD with
            | none => some ⟨maj, mi, 0, pre, meta⟩
            | some pd =>
              match parseUint64 pd with
              | none => none
              | some pat => some ⟨maj, mi, pat, pre, meta⟩

/-- `semver.NewVersion`: optional leading `v`, then the version grammar. -/
def semverNewVersion (s : String) : Option SemVer :=
  match s.data with
  | [] => parseCore []
  | c :: rest => if c = 'v' then parseCore rest else parseCore (c :: rest)

/-- `compareSegment` of Masterminds/semver. -/
def compareSegment (v o : Nat) : Int :=
  if v < o then -1 else if v > o then 1 else 0

/-- Go's byte-wise string `>` on the ASCII prerelease charset. -/
def stringGt (s o : String) : Bool :=
  decide (o.data < s.data)

/-- `comparePrePart` of Masterminds/semver: numeric identifiers order
numerically and below alphanumeric ones; otherwise byte order. -/
def comparePrePart (s o : String) : Int :=
  if s = o then 0
  else if s = "" then (if o ≠ "" then -1 else 1)
  else if o = "" then (if s ≠ "" then 1 else -1)
  else
    match parseInt64 s, parseInt64 o with
    | none, none => if stringGt s o then 1 else -1
    | some _, none => -1
    | none, some _ => 1
    | some si, some oi => if si > oi then 1 else -1

/-- The indexed loop of `comparePrerelease`, padding the shorter side
with `""`. -/
def comparePreParts : List String → List String → Int
  | [], [] => 0
  | s :: ss, [] =>
    let d := comparePrePart s ""
    if d ≠ 0 then d else comparePreParts ss []
  | [], o :: os =>
    let d := comparePrePart "" o
    if d ≠ 0 then d else comparePreParts [] os
  | s :: ss, o :: os =>
    let d := comparePrePart s o
    if d ≠ 0 then d else comparePreParts ss os

/-- `comparePrerelease` of Masterminds/semver. -/
def comparePrerelease (v o : String) : Int :=
  comparePreParts ((splitOnDot v.data).map String.mk)
    ((splitOnDot o.data).map String.mk)

/-- `Version.Compare` of Masterminds/semver. -/
def semverCompare (v o : SemVer) : Int :=
  let d := compareSegment v.major o.major
  if d ≠ 0 then d
  else
    let d := compareSegment v.minor o.minor
    if d ≠ 0 then d
    else
      let d := compareSegment v.patch o.patch
      if d ≠ 0 then d
      else
        if v.pre = "" ∧ o.pre = "" then 0
        else if v.pre = "" then 1
        else if o.pre = "" then -1
        else comparePrerelease v.pre o.pre

/-- `Version.GreaterThan`. -/
def semverGreaterThan (v o : SemVer) : Bool :=
  semverCompare v o > 0

/-- `strings.TrimPrefix s "v"`. -/
def trimPrefixV (s : String) : String :=
  match s.data with
  | [] => s
  | c :: rest => if c = 'v' then String.mk rest else s

/-- `Manager.CompareVersions` (`status.go`): strips a leading `v` from
both inputs, parses both with `semver.NewVersion`, errors if either
fails, else reports whether `latest > installed`. -/
def compareVersions (installed latest : String) : Except String Bool :=
  let installed := trimPrefixV installed
  let latest := trimPrefixV latest
  match semverNewVersion installed with
  | none => .error "invalid installed version"
  | some iv =>
    match semverNewVersion latest with
    | none => .error "invalid latest version"
    | some lv => .ok (semverGreaterThan lv iv)

/-- The Bool a caller sees when it ignores the error, as in
`hasUpdate, _ := m.CompareVersions(...)`: every error path of
`CompareVersions` returns `false` for the Bool. -/
def compareVersionsBool (installed latest : String) : Bool :=
  match compareVersions installed latest with
  | .ok b => b
  | .error _ => false

/-! ## Platform and package-manager registry (`internal/platform`) -/

/-- `platform.OS` (a closed string enum in the source: `"windows"`,
`"darwin"`, `"linux"`, `"unknown"`). -/
inductive OS where
  | windows
  | darwin
  | linux
  | unknown
  deriving Repr, DecidableEq

/-- `Platform.GetOSKey`: the string key used in tool definitions,
`string(p.OS)`. -/
def osKey : OS → String
  | .windows => "windows"
  | .darwin => "darwin"
  | .linux => "linux"
  | .unknown => "unknown"

/-- The host environment the availability checks consult: the current
`runtime.GOOS` and `exec.LookPath` (`commandExists`). -/
structure HostEnv where
  os : OS
  cmdExists : String → Bool

/-- `WinGet.IsAvailable`: `IsWindows() && commandExists("winget")`. -/
def wingetIsAvailable (e : HostEnv) : Bool :=
  e.os = .windows && e.cmdExists "winget"

/-- `Homebrew.IsAvailable`: `(IsDarwin() || IsLinux()) && commandExists("brew")`. -/
def brewIsAvailable (e : HostEnv) : Bool :=
  (e.os = .darwin || e.os = .linux) && e.cmdExists "brew"

/-- `Apt.IsAvailable`: `IsLinux() && commandExists("apt")`. -/
def aptIsAvailable (e : HostEnv) : Bool :=
  e.os = .linux && e.cmdExists "apt"

/-- `Pacman.IsAvailable`: `IsLinux() && commandExists("pacman")`. -/
def pacmanIsAvailable (e : HostEnv) : Bool :=
  e.os = .linux && e.cmdExists "pacman"

/-- `Npm.IsAvailable`: `commandExists("npm")`. -/
def npmIsAvailable (e : HostEnv) : Bool :=
  e.cmdExists "npm"

/-- `Pip.IsAvailable`: `commandExists("pip") || commandExists("pip3")`. -/
def pipIsAvailable (e : HostEnv) : Bool :=
  e.cmdExists "pip" || e.cmdExists "pip3"

/-! ## Tool configuration (`internal/config`) -/

/-- `config.InstallSpec`: per-manager command strings; the empty string
is Go's zero value and means "this manager cannot install/uninstall this
tool on this OS". -/
structure InstallSpec where
  WinGet : String := ""
  Npm : String := ""
  Brew : String := ""
  Apt : String := ""
  Pacman : String := ""
  Pip : String := ""
  Script : String := ""
  deriving Repr, DecidableEq

/-- A tool's `Install` (or `Uninstall`) field: a Go map from OS key to
`InstallSpec`, modelled as an association list with `map[key]` lookup. -/
def specLookup (m : List (String × InstallSpec)) (key : String) : Option InstallSpec :=
  (m.find? fun p => p.1 = key).map Prod.snd

/-! ## Install-method selection (`status.go` / `installer.go`) -/

/-- `Manager.GetAvailableInstallMethods`: the list of methods whose
command is declared for the current OS and whose manager is available
(`script` needs no availability check). -/
def getAvailableInstallMethods (e : HostEnv)
    (install : List (String × InstallSpec)) : List String :=
  match specLookup install (osKey e.os) with
  | none => []
  | some spec =>
    (if spec.WinGet ≠ "" && e.os = .windows && wingetIsAvailable e then ["winget"] else []) ++
    (if spec.Brew ≠ "" && brewIsAvailable e then ["brew"] else []) ++
    (if spec.Apt ≠ "" && aptIsAvailable e then ["apt"] else []) ++
    (if spec.Pacman ≠ "" && pacmanIsAvailable e then ["pacman"] else []) ++
    (if spec.Npm ≠ "" && npmIsAvailable e then ["npm"] else []) ++
    (if spec.Pip ≠ "" && pipIsAvailable e then ["pip"] else []) ++
    (if spec.Script ≠ "" then ["script"] else [])

/-- `Manager.GetBestInstallMethod`: platform-first priority, then the
cross-platform fallbacks `npm`, `pip`, then `script` (which requires no
availability check); `("", "")` when nothing matches. -/
def getBestInstallMethod (e : HostEnv)
    (install : List (String × InstallSpec)) : String × String :=
  match specLookup install (osKey e.os) with
  | none => ("", "")
  | some spec =>
    if e.os = .windows && spec.WinGet ≠ "" && wingetIsAvailable e then
      ("winget", spec.WinGet)
    else if e.os = .darwin && spec.Brew ≠ "" && brewIsAvailable e then
      ("brew", spec.Brew)
    else if e.os = .linux && spec.Apt ≠ "" && aptIsAvailable e then
      ("apt", spec.Apt)
    else if e.os = .linux && spec.Brew ≠ "" && brewIsAvailable e then
      ("brew", spec.Brew)
    else if e.os = .linux && spec.Pacman ≠ "" && pacmanIsAvailable e then
      ("pacman", spec.Pacman)
    else if spec.Npm ≠ "" && npmIsAvailable e then
      ("npm", spec.Npm)
    else if spec.Pip ≠ "" && pipIsAvailable e then
      ("pip", spec.Pip)
    else if spec.Script ≠ "" then
      ("script", spec.Script)
    else ("", "")

/-- The per-tool method choice of `Manager.InstallAll` for a tool that is
not yet installed: a non-empty `preferredMethod` whose command is defined
in the InstallSpec is used directly (the `switch` covers only
winget/brew/npm/pip/apt and no availability check is made); every other
case falls through to `Manager.Install`, i.e. `GetBestInstallMethod`. -/
def installAllSelect (e : HostEnv) (install : List (String × InstallSpec))
    (preferredMethod : String) : String × String :=
  if preferredMethod ≠ "" then
    match specLookup install (osKey e.os) with
    | some spec =>
      let cmd :=
        if preferredMethod = "winget" then spec.WinGet
        else if preferredMethod = "brew" then spec.Brew
        else if preferredMethod = "npm" then spec.Npm
        else if preferredMethod = "pip" then spec.Pip
        else if preferredMethod = "apt" then spec.Apt
        else ""
      if cmd ≠ "" then (preferredMethod, cmd)
      else getBestInstallMethod e install
    | none => getBestInstallMethod e install
  else getBestInstallMethod e install

/-! ## Status computation (`status.go`) -/

/-- `manager.ToolStatus` (without the back-pointer to the definition). -/
structure ToolStatus where
  IsInstalled : Bool
  InstalledVer : String
  LatestVer : String
  HasUpdate : Bool
  InstallMethods : List String
  deriving Repr, DecidableEq

/-- The two effectful inputs of `GetToolStatus` — the result of
`GetInstalledVersion` (local probe) and of `GetLatestVersion` (network
resolver) — plus the tool's install map and host, which determine
`InstallMethods`. -/
structure StatusInputs where
  installedRes : Except String String
  latestRes : Except String String
  env : HostEnv
  install : List (String × InstallSpec)

/-- `Manager.GetToolStatus`: marks the tool installed when the probe
succeeds with a non-empty version, records the latest version when the
resolver succeeds with a non-empty string, and only then derives
`HasUpdate` from `CompareVersions` (ignoring its error, which carries
`false`). -/
def getToolStatus (inp : StatusInputs) : ToolStatus :=
  let s0 : ToolStatus :=
    { IsInstalled := false, InstalledVer := "", LatestVer := ""
      HasUpdate := false, InstallMethods := [] }
  let s1 :=
    match inp.installedRes with
    | .ok v => if v ≠ "" then { s0 with IsInstalled := true, InstalledVer := v } else s0
    | .error _ => s0
  let s2 :=
    match inp.latestRes with
    | .ok lv =>
      if lv ≠ "" then
        let s := { s1 with LatestVer := lv }
        if s.IsInstalled && s.InstalledVer ≠ "" then
          { s with HasUpdate := compareVersionsBool s.InstalledVer lv }
        else s
      else s1
    | .error _ => s1
  { s2 with InstallMethods := getAvailableInstallMethods inp.env inp.install }

/-! ## The status aggregator (`Manager.GetAllToolStatus`)

One goroutine per tool writes `statuses[idx] = m.GetToolStatus(&t)` into
a pre-allocated slice and a `WaitGroup` joins them.  Each slot is written
only by its own task, so the final slice is the same for every
interleaving; the interleaving is modelled as the order in which the
tasks' single writes land. -/

/-- Execute the tasks' writes in the given order into the pre-allocated
slice: task `i` stores tool `i`'s status at index `i`. -/
def runAggregator (tools : List StatusInputs) (order : List (Fin tools.length))
    (acc : List (Option ToolStatus)) : List (Option ToolStatus) :=
  order.foldl (fun a i => a.set i.val (some (getToolStatus (tools.get i)))) acc

/-- `Manager.GetAllToolStatus` under the write order `order`: starts from
the `make([]*ToolStatus, len(tools))` slice of nil slots. -/
def getAllToolStatus (tools : List StatusInputs)
    (order : List (Fin tools.length)) : List (Option ToolStatus) :=
  runAggregator tools order (List.replicate tools.length none)

/-! ## The updater (`agenthelper-go/internal/manager/updater.go`) -/

/-- `manager.UpdateResult` (without the wrapped Go `error` value; failure
is the `Success := false` cases). -/
structure UpdateResult where
  Success : Bool
  Method : String
  OldVersion : String
  NewVersion : String
  Output : String
  WasUpToDate : Bool
  deriving Repr, DecidableEq

/-- `replaceWingetInstallWithUpgrade`: when the command starts with
`winget` (checked via `installCmd[:6]` behind a `len(installCmd) > 6`
guard) the code slices `installCmd[14:]`.  Go string indexing panics when
the slice bound exceeds the length, so the result is `none` (a runtime
panic) for inputs of length 7–13 that start with `winget`. -/
def replaceWingetInstallWithUpgrade (installCmd : String) : Option String :=
  if installCmd.length > 6 ∧ installCmd.data.take 6 = "winget".data then
    if installCmd.length ≥ 14 then
      some ("winget upgrade" ++ String.mk (installCmd.data.drop 14))
    else none
  else some installCmd

/-- The effectful inputs of one `Manager.Update` run: the tool's display
name, the two version lookups, the host and install map (for
`GetBestInstallMethod` and the winget rewrite), the external command's
outcome and captured stdout, and the verification re-probe. -/
structure UpdateInputs where
  name : String
  installedRes : Except String String
  latestRes : Except String String
  env : HostEnv
  install : List (String × InstallSpec)
  runRes : Except String Unit
  runOut : String
  verifyRes : Except String String

/-- `Manager.Update`, paired with the list of external commands it
executes; `none` models the Go panic reachable through
`replaceWingetInstallWithUpgrade`. -/
def update (u : UpdateInputs) : Option (UpdateResult × List String) :=
  let r0 : UpdateResult :=
    { Success := false, Method := "", OldVersion := "", NewVersion := ""
      Output := "", WasUpToDate := false }
  match u.installedRes with
  | .error _ => some (r0, [])
  | .ok currentVersion =>
    let r1 := { r0 with OldVersion := currentVersion }
    let proceed : UpdateResult → Option (UpdateResult × List String) := fun r =>
      match getBestInstallMethod u.env u.install with
      | ("", _) => some (r0, [])
      | (method, command) =>
        let command? : Option String :=
          if u.env.os = .windows ∧ method = "winget" then
            match specLookup u.install (osKey u.env.os) with
            | some spec =>
              if spec.WinGet ≠ "" then replaceWingetInstallWithUpgrade spec.WinGet
              else some command
            | none => some command
          else some command
        match command? with
        | none => none
        | some command =>
          let r := { r with Output := u.runOut, Method := method }
          match u.runRes with
          | .error _ => some ({ r with Success := false }, [command])
          | .ok _ =>
            match u.verifyRes with
            | .error _ => some ({ r with Success := false }, [command])
            | .ok newVersion =>
              let r := { r with Success := true, NewVersion := newVersion }
              if r.OldVersion = newVersion then
                some ({ r with WasUpToDate := true
                               Output := u.name ++ " is already at latest version (v" ++
                                 newVersion ++ ")" }, [command])
              else
                some ({ r with Output := "Successfully updated " ++ u.name ++ " from v" ++
                                 r.OldVersion ++ " to v" ++ newVersion }, [command])
    match u.latestRes with
    | .error _ => proceed r1
    | .ok latestVersion =>
      let r2 := { r1 with NewVersion := latestVersion }
      match compareVersions currentVersion latestVersion with
      | .ok false =>
        some ({ r2 with Success := true, WasUpToDate := true
                        Output := u.name ++ " is already up to date (v" ++
                          currentVersion ++ ")" }, [])
      | _ => proceed r2

/-! ## The uninstaller (`internal/manager/installer.go`) -/

/-- `manager.InstallResult` (without the wrapped Go `error` value). -/
structure InstallResult where
  Success : Bool
  Method : String
  Output : String
  deriving Repr, DecidableEq

/-- The `if`/`else if` chain of `Manager.Uninstall` that picks the single
method and command that will run: `winget` (Windows only), then `brew`,
`npm`, `pip`. -/
def uninstallMethodSelect (isWin : Bool) (spec : InstallSpec) :
    Option (String × String) :=
  if isWin ∧ spec.WinGet ≠ "" then some ("winget", spec.WinGet)
  else if spec.Brew ≠ "" then some ("brew", spec.Brew)
  else if spec.Npm ≠ "" then some ("npm", spec.Npm)
  else if spec.Pip ≠ "" then some ("pip", spec.Pip)
  else none

/-- `Manager.Uninstall`, paired with the list of external commands it
executes.  `uninstallSpec` is `tool.Uninstall[osKey]` (`none` when the
map has no entry for this OS); `runRes`/`runOut` are the outcome and
captured stdout of the one command it may run. -/
def uninstall (isWin : Bool) (toolName : String)
    (uninstallSpec : Option InstallSpec) (runRes : Except String Unit)
    (runOut : String) : InstallResult × List String :=
  match uninstallSpec with
  | none => ({ Success := false, Method := "", Output := "" }, [])
  | some spec =>
    match uninstallMethodSelect isWin spec with
    | none => ({ Success := false, Method := "", Output := "" }, [])
    | some (method, command) =>
      match runRes with
      | .error _ => ({ Success := false, Method := method, Output := runOut }, [command])
      | .ok _ =>
        ({ Success := true, Method := method
           Output := "Successfully uninstalled " ++ toolName }, [command])

/-! ## Version extraction (`internal/manager/version_checker.go`)

`ExtractVersion` delegates the matching itself to Go's `regexp` package;
the engine is abstracted here as the pair of observations the function
makes: whether `regexp.Compile` succeeds, and `FindStringSubmatch`'s
result (`[]` for no match; otherwise the full match at index 0 followed
by the capture groups). -/

/-- The slice of Go's `regexp` API that `ExtractVersion` consumes. -/
structure RegexEngine where
  compiles : String → Bool
  findStringSubmatch : String → String → List String

/-- `ExtractVersion`: empty pattern replaced by the default
`(\d+\.\d+\.\d+)`; compile failure yields `""`; a match with a capture
group yields the first group, a bare match yields the whole match, no
match yields `""`. -/
def extractVersion (re : RegexEngine) (output pattern : String) : String :=
  let pattern := if pattern = "" then "(\\d+\\.\\d+\\.\\d+)" else pattern
  if re.compiles pattern then
    let ms := re.findStringSubmatch pattern output
    match ms with
    | _ :: m1 :: _ => m1
    | m0 :: [] => m0
    | [] => ""
  else ""

/-! ## The release-api resolvers

Go `getLatestGitHubVersion` (`version_checker.go`) and PowerShell
`Get-LatestGitHubVersion` (`CodingAgentsHelper.ps1`).  The network call
itself is external; what is embedded is the request-header construction
from the token environment and the post-processing of the release tag. -/

/-- The two environment variables the PowerShell resolver consults
(the empty string models an unset variable, which is falsy in
PowerShell's `if ($env:...)`). -/
structure TokenEnv where
  ghToken : String
  githubToken : String

/-- The headers of the Go resolver's request: `req.Header.Set` is called
exactly once, for `Accept`.  The function takes the token environment
only to record that the Go code reads no environment variable at all. -/
def goGitHubRequestHeaders (_env : TokenEnv) : List (String × String) :=
  [("Accept", "application/vnd.github.v3+json")]

/-- The Go resolver's tag post-processing:
`strings.TrimPrefix(release.TagName, "v")`. -/
def goGitHubVersionFromTag (tagName : String) : String :=
  trimPrefixV tagName

/-- The headers of the PowerShell resolver's request: `Accept` and
`User-Agent` always; `Authorization: Bearer <token>` when
`$env:GH_TOKEN`, else `$env:GITHUB_TOKEN`, is non-empty. -/
def psGitHubRequestHeaders (env : TokenEnv) : List (String × String) :=
  let base := [("Accept", "application/vnd.github.v3+json"),
               ("User-Agent", "CodingAgentsHelper")]
  let token := if env.ghToken ≠ "" then env.ghToken else env.githubToken
  if token ≠ "" then base ++ [("Authorization", "Bearer " ++ token)] else base

/-- The PowerShell resolver's tag post-processing:
`$response.tag_name -replace '^v', ''` (PowerShell `-replace` is
case-insensitive, so a leading `V` is stripped too). -/
def psGitHubVersionFromTag (tagName : String) : String :=
  match tagName.data with
  | c :: rest => if c = 'v' ∨ c = 'V' then String.mk rest else tagName
  | [] => tagName

/-! ## Specification-side definitions

These follow the wording of the specification (dotted-numeric versions,
field-by-field comparison with zero padding, priority lists, declared
uninstall methods) and are compared against the source-translated
functions above. -/

/-- A non-empty all-digit field whose numeric value fits in a `uint64`
(the width `Manager.CompareVersions`' library parses fields at). -/
def DigitField (f : List Char) : Prop :=
  f ≠ [] ∧ (∀ c ∈ f, c.isDigit = true) ∧ digitsVal f < 2 ^ 64

instance (f : List Char) : Decidable (DigitField f) := by
  unfold DigitField; infer_instance

/-- Valid dotted-numeric version content: one to three numeric fields. -/
def ValidFields (fs : List (List Char)) : Prop :=
  1 ≤ fs.length ∧ fs.length ≤ 3 ∧ ∀ f ∈ fs, DigitField f

instance (fs : List (List Char)) : Decidable (ValidFields fs) := by
  unfold ValidFields; infer_instance

/-- The dotted-numeric version string with the given fields. -/
def renderFields (fs : List (List Char)) : String :=
  String.mk (List.intercalate ['.'] fs)

/-- The numeric values of the fields. -/
def fieldVals (fs : List (List Char)) : List Nat :=
  fs.map digitsVal

/-- Pad with trailing zeros to length `n` ("missing trailing fields
treated as zero"). -/
def padTo (n : Nat) (l : List Nat) : List Nat :=
  l ++ List.replicate (n - l.length) 0

/-- Strict lexicographic (field-by-field) order on equal-length numeric
field lists. -/
def lexLtNat : List Nat → List Nat → Bool
  | a :: as, b :: bs => a < b || (a = b && lexLtNat as bs)
  | _, _ => false

/-- The spec's "dotted-numeric version string": dot-separated non-empty
runs of digits (no `v` prefix, no prerelease or metadata suffix). -/
def isDottedNumericStr (s : String) : Bool :=
  (splitOnDot s.data).all fun f => !f.isEmpty && f.all Char.isDigit

/-- The declared uninstall methods of a spec, in the order
`Manager.Uninstall` considers them: `winget` (Windows only), `brew`,
`npm`, `pip`. -/
def declaredUninstallMethods (isWin : Bool) (spec : InstallSpec) :
    List (String × String) :=
  (if isWin ∧ spec.WinGet ≠ "" then [("winget", spec.WinGet)] else []) ++
  (if spec.Brew ≠ "" then [("brew", spec.Brew)] else []) ++
  (if spec.Npm ≠ "" then [("npm", spec.Npm)] else []) ++
  (if spec.Pip ≠ "" then [("pip", spec.Pip)] else [])

/-- The command the `switch preferredMethod` statement of
`Manager.InstallAll` selects from the InstallSpec (empty for any
manager outside its five cases, in particular `pacman` and `script`). -/
def preferredCmd (spec : InstallSpec) (preferredMethod : String) : String :=
  if preferredMethod = "winget" then spec.WinGet
  else if preferredMethod = "brew" then spec.Brew
  else if preferredMethod = "npm" then spec.Npm
  else if preferredMethod = "pip" then spec.Pip
  else if preferredMethod = "apt" then spec.Apt
  else ""

/-- The OS-specific priority list `GetBestInstallMethod` walks, as a list
of candidates that are declared and availability-checked (`script`
requires only declaration). -/
def priorityCandidates (e : HostEnv) (spec : InstallSpec) :
    List (String × String) :=
  (if e.os = .windows && spec.WinGet ≠ "" && wingetIsAvailable e then
    [("winget", spec.WinGet)] else []) ++
  (if e.os = .darwin && spec.Brew ≠ "" && brewIsAvailable e then
    [("brew", spec.Brew)] else []) ++
  (if e.os = .linux && spec.Apt ≠ "" && aptIsAvailable e then
    [("apt", spec.Apt)] else []) ++
  (if e.os = .linux && spec.Brew ≠ "" && brewIsAvailable e then
    [("brew", spec.Brew)] else []) ++
  (if e.os = .linux && spec.Pacman ≠ "" && pacmanIsAvailable e then
    [("pacman", spec.Pacman)] else []) ++
  (if spec.Npm ≠ "" && npmIsAvailable e then [("npm", spec.Npm)] else []) ++
  (if spec.Pip ≠ "" && pipIsAvailable e then [("pip", spec.Pip)] else []) ++
  (if spec.Script ≠ "" then [("script", spec.Script)] else [])

/-! ## Theorems for the claims -/

/-- C4: for every tool that is installed and whose installed version the
comparator orders not strictly before the resolved latest version,
`Update` terminates as already-satisfied with `WasUpToDate = true` and
executes no external install/upgrade command. -/
theorem update_alreadyUpToDate_noCommand (u : UpdateInputs) (cur lat : String)
    (h1 : u.installedRes = .ok cur) (h2 : u.latestRes = .ok lat)
    (h3 : compareVersions cur lat = .ok false) :
    update u = some ({ Success := true, Method := "", OldVersion := cur,
                       NewVersion := lat,
                       Output := u.name ++ " is already up to date (v" ++ cur ++ ")",
                       WasUpToDate := true }, []) := by
  simp [update, h1, h2, h3]

/-- Witness for C4: a tool at version `1.2.3` with latest `1.2.3`
performs zero executions and reports `WasUpToDate = true`. -/
theorem update_alreadyUpToDate_noCommand_witness :
    update { name := "aider", installedRes := .ok "1.2.3",
             latestRes := .ok "1.2.3",
             env := ⟨.linux, fun _ => false⟩, install := [],
             runRes := .ok (), runOut := "", verifyRes := .ok "1.2.3" } =
      some ({ Success := true, Method := "", OldVersion := "1.2.3",
              NewVersion := "1.2.3",
              Output := "aider is already up to date (v1.2.3)",
              WasUpToDate := true }, []) :=
  update_alreadyUpToDate_noCommand _ "1.2.3" "1.2.3" rfl rfl rfl

/-- C9: `replaceWingetInstallWithUpgrade` is not safe for every input:
the guard checks only `len > 6` and a `winget` prefix, but the slice is
at index 14, so `"winget i"` (length 8) reaches the slice and panics;
the intended inputs (`winget install ...`, length ≥ 14) are rewritten
without out-of-bounds access. -/
theorem replaceWinget_oob_panic :
    replaceWingetInstallWithUpgrade "winget i" = none ∧
    ("winget i".length > 6 ∧ "winget i".data.take 6 = "winget".data) ∧
    ¬("winget i".length ≥ 14) ∧
    replaceWingetInstallWithUpgrade "winget install Aider.Aider" =
      some "winget upgrade Aider.Aider" := by
  refine ⟨by decide, ⟨by decide, by decide⟩, by decide, by decide⟩

/-- C7 counterexample: the Go release-api resolver
(`getLatestGitHubVersion`) sends no bearer token even when `GH_TOKEN` is
set — its only header is `Accept`. -/
theorem goGitHub_no_bearer_cex :
    (⟨"ghp_secret", ""⟩ : TokenEnv).ghToken ≠ "" ∧
    goGitHubRequestHeaders ⟨"ghp_secret", ""⟩ =
      [("Accept", "application/vnd.github.v3+json")] ∧
    (goGitHubRequestHeaders ⟨"ghp_secret", ""⟩).lookup "Authorization" = none := by
  refine ⟨by decide, rfl, by decide⟩

/-- C7 (amended): only the PowerShell resolver carries the bearer token,
with `GH_TOKEN` winning over `GITHUB_TOKEN` and no `Authorization` header
when both are empty; the Go resolver sends only `Accept` regardless of
the environment; both strip a leading `v` from the release tag. -/
theorem githubResolver_headers_tag (env : TokenEnv) (tag : String) :
    ((psGitHubRequestHeaders env).lookup "Authorization" =
      (if env.ghToken ≠ "" then some ("Bearer " ++ env.ghToken)
       else if env.githubToken ≠ "" then some ("Bearer " ++ env.githubToken)
       else none)) ∧
    (psGitHubRequestHeaders env).lookup "Accept" =
      some "application/vnd.github.v3+json" ∧
    (goGitHubRequestHeaders env).lookup "Authorization" = none ∧
    goGitHubVersionFromTag ("v" ++ tag) = tag ∧
    psGitHubVersionFromTag ("v" ++ tag) = tag := by
  have hdata : ("v" ++ tag).data = 'v' :: tag.data := by
    simp [String.data_append]
  have hmk : String.mk tag.data = tag := rfl
  refine ⟨?_, ?_, rfl, ?_, ?_⟩
  · by_cases h1 : env.ghToken = "" <;> by_cases h2 : env.githubToken = "" <;>
      simp [psGitHubRequestHeaders, h1, h2, List.lookup]
  · by_cases h1 : env.ghToken = "" <;> by_cases h2 : env.githubToken = "" <;>
      simp [psGitHubRequestHeaders, h1, h2, List.lookup]
  · simp [goGitHubVersionFromTag, trimPrefixV, hdata]
  · simp [psGitHubVersionFromTag, hdata]

/-- C5 counterexample: a tool declaring both `npm` and `pip` uninstall
commands on a non-Windows host: `Uninstall` runs only the `npm` command,
and when that command fails it returns failure without ever attempting
the declared `pip` command. -/
theorem uninstall_walksAll_cex :
    (uninstall false "aider"
        (some { Npm := "npm uninstall -g aider", Pip := "pip uninstall -y aider-chat" })
        (.error "exit status 1") "").2 = ["npm uninstall -g aider"] ∧
    ({ Npm := "npm uninstall -g aider", Pip := "pip uninstall -y aider-chat" }
        : InstallSpec).Pip ≠ "" ∧
    "pip uninstall -y aider-chat" ∉
      (uninstall false "aider"
        (some { Npm := "npm uninstall -g aider", Pip := "pip uninstall -y aider-chat" })
        (.error "exit status 1") "").2 ∧
    (uninstall false "aider"
        (some { Npm := "npm uninstall -g aider", Pip := "pip uninstall -y aider-chat" })
        (.error "exit status 1") "").1.Success = false := by
  refine ⟨by decide, by decide, by decide, by decide⟩

/-- The chained selection of `Manager.Uninstall` picks exactly the head
of the declared-methods priority list. -/
theorem uninstallMethodSelect_eq_head (isWin : Bool) (spec : InstallSpec) :
    uninstallMethodSelect isWin spec = (declaredUninstallMethods isWin spec).head? := by
  cases isWin <;>
    by_cases h1 : spec.WinGet = "" <;>
    by_cases h2 : spec.Brew = "" <;>
    by_cases h3 : spec.Npm = "" <;>
    by_cases h4 : spec.Pip = "" <;>
    simp_all [uninstallMethodSelect, declaredUninstallMethods]

/-- C5 (amended): `Uninstall` attempts exactly one method — the first
declared in the order winget (Windows only), brew, npm, pip — and a
failure of that method ends the uninstall as failed without attempting
any remaining declared method. -/
theorem uninstall_firstDeclaredOnly (isWin : Bool) (name : String)
    (spec : InstallSpec) (rr : Except String Unit) (out : String) :
    (uninstall isWin name (some spec) rr out).2 =
      ((declaredUninstallMethods isWin spec).head?.map Prod.snd).toList ∧
    (rr.isOk = false → (uninstall isWin name (some spec) rr out).1.Success = false) := by
  have hsel := uninstallMethodSelect_eq_head isWin spec
  cases h : uninstallMethodSelect isWin spec with
  | none =>
    rw [h] at hsel
    cases rr <;> simp [uninstall, h, ← hsel]
  | some mc =>
    obtain ⟨m, c⟩ := mc
    rw [h] at hsel
    cases rr <;> simp [uninstall, h, ← hsel, Except.isOk, Except.toBool]

/-- Witness for C5 (amended): on Windows with `winget` and `brew` both
declared and a failing command, exactly the `winget` command is attempted
and the result is a failure. -/
theorem uninstall_firstDeclaredOnly_witness :
    (uninstall true "code"
        (some { WinGet := "winget uninstall VSCode", Brew := "brew uninstall vscode" })
        (.error "boom") "").2 = ["winget uninstall VSCode"] ∧
    (uninstall true "code"
        (some { WinGet := "winget uninstall VSCode", Brew := "brew uninstall vscode" })
        (.error "boom") "").1.Success = false :=
  ⟨(uninstall_firstDeclaredOnly true "code" _ (.error "boom") "").1.trans (by decide),
   (uninstall_firstDeclaredOnly true "code" _ (.error "boom") "").2 (by decide)⟩

/-- C6 counterexample: with `preferred = "pip"`, a tool whose Linux
InstallSpec defines a `pip` command, `pip`/`pip3` not on the path and
`npm` defined and available, `InstallAll`'s selection still returns the
`pip` method — the preferred branch never consults availability, where
the claim requires the preferred manager to be returned only when it is
currently available. -/
theorem installAll_preferred_ignores_availability_cex :
    installAllSelect ⟨.linux, fun c => c == "npm"⟩
        [("linux", { Npm := "npm install -g aider", Pip := "pip install aider-chat" })]
        "pip" = ("pip", "pip install aider-chat") ∧
    pipIsAvailable ⟨.linux, fun c => c == "npm"⟩ = false ∧
    npmIsAvailable ⟨.linux, fun c => c == "npm"⟩ = true ∧
    ({ Npm := "npm install -g aider", Pip := "pip install aider-chat" }
        : InstallSpec).Pip ≠ "" := by
  refine ⟨rfl, rfl, rfl, by decide⟩

/-- `head?` of a conditional singleton prepended to a list. -/
theorem headOpt_if_append {α : Type} (c : Prop) [Decidable c] (x : α)
    (rest : List α) :
    ((if c then [x] else []) ++ rest).head? = if c then some x else rest.head? := by
  split_ifs <;> simp

/-- `head?` of a conditional singleton. -/
theorem headOpt_if {α : Type} (c : Prop) [Decidable c] (x : α) :
    (if c then [x] else [] : List α).head? = if c then some x else none := by
  split_ifs <;> simp

/-- `getD` pushed through a conditional option. -/
theorem getD_ite {α : Type} (c : Prop) [Decidable c] (x : α) (y : Option α)
    (d : α) :
    (if c then some x else y).getD d = if c then x else y.getD d := by
  split_ifs <;> simp

/-- C6 (amended): a non-empty preferred manager among
winget/brew/npm/pip/apt whose command is defined in the current OS's
InstallSpec is returned regardless of availability; in every other case
the selection falls back to `GetBestInstallMethod`, which returns the
head of the fixed OS-specific priority list (Windows: winget; macOS:
brew; Linux: apt, brew, pacman; then cross-platform npm, pip, each
requiring definedness and availability; finally script, requiring only
definedness), or `("", "")` when the list is empty. -/
theorem installMethodSelection_characterization (e : HostEnv)
    (install : List (String × InstallSpec)) (preferred : String)
    (spec : InstallSpec) (hspec : specLookup install (osKey e.os) = some spec)
    (hp : preferred ≠ "") :
    (preferredCmd spec preferred ≠ "" →
      installAllSelect e install preferred = (preferred, preferredCmd spec preferred)) ∧
    (preferredCmd spec preferred = "" →
      installAllSelect e install preferred = getBestInstallMethod e install) ∧
    getBestInstallMethod e install = ((priorityCandidates e spec).head?).getD ("", "") := by
  refine ⟨?_, ?_, ?_⟩
  · intro hcmd
    simp only [installAllSelect, hp, if_true, hspec, preferredCmd] at *
    split_ifs at hcmd ⊢ <;> simp_all
  · intro hcmd
    simp only [installAllSelect, hp, if_true, hspec, preferredCmd] at *
    split_ifs at hcmd ⊢ <;> simp_all
  · simp only [getBestInstallMethod, priorityCandidates, hspec,
      List.append_assoc, headOpt_if_append, headOpt_if, getD_ite, Option.getD_none]

/-- Witness for C6 (amended): on Linux with `pip` preferred, defined and
unavailable, the preferred branch still returns the pip command, and with
an empty preferred command the fallback returns the head of the priority
list. -/
theorem installMethodSelection_characterization_witness :
    installAllSelect ⟨.linux, fun c => c == "npm"⟩
        [("linux", { Npm := "npm install -g aider", Pip := "pip install aider-chat" })]
        "pip" = ("pip", "pip install aider-chat") :=
  (installMethodSelection_characterization ⟨.linux, fun c => c == "npm"⟩
      [("linux", { Npm := "npm install -g aider", Pip := "pip install aider-chat" })]
      "pip" { Npm := "npm install -g aider", Pip := "pip install aider-chat" }
      rfl (by decide)).1 (by decide)

/-- C10: `ExtractVersion` is total and never reports an error: an empty
pattern is replaced by the default `(\d+\.\d+\.\d+)`; a pattern that
fails to compile yields `""`; no match yields `""`; a bare match (no
capture group) yields the whole match; a match with a capture group
yields the first group. -/
theorem extractVersion_spec (re : RegexEngine) (output pattern : String) :
    (extractVersion re output "" = extractVersion re output "(\\d+\\.\\d+\\.\\d+)") ∧
    (pattern ≠ "" →
      ((re.compiles pattern = false → extractVersion re output pattern = "") ∧
       (re.compiles pattern = true →
        ((re.findStringSubmatch pattern output = [] →
            extractVersion re output pattern = "") ∧
         (∀ m0, re.findStringSubmatch pattern output = [m0] →
            extractVersion re output pattern = m0) ∧
         (∀ m0 m1 rest, re.findStringSubmatch pattern output = m0 :: m1 :: rest →
            extractVersion re output pattern = m1))))) := by
  constructor
  · simp [extractVersion]
  · intro hp
    refine ⟨fun hc => by simp [extractVersion, hp, hc], fun hc => ⟨?_, ?_, ?_⟩⟩
    · intro hm; simp [extractVersion, hp, hc, hm]
    · intro m0 hm; simp [extractVersion, hp, hc, hm]
    · intro m0 m1 rest hm; simp [extractVersion, hp, hc, hm]

/-- Witness for C10: the spec's end-to-end example — output
`myagent version 2.5.0 (build 91)` with pattern `(\d+\.\d+\.\d+)` — on an
engine matching the way Go's regexp does. -/
theorem extractVersion_spec_witness :
    extractVersion
      ⟨fun _ => true,
       fun _ out => if out = "myagent version 2.5.0 (build 91)"
                    then ["2.5.0", "2.5.0"] else []⟩
      "myagent version 2.5.0 (build 91)" "(\\d+\\.\\d+\\.\\d+)" = "2.5.0" :=
  (((extractVersion_spec
      ⟨fun _ => true,
       fun _ out => if out = "myagent version 2.5.0 (build 91)"
                    then ["2.5.0", "2.5.0"] else []⟩
      "myagent version 2.5.0 (build 91)" "(\\d+\\.\\d+\\.\\d+)").2
    (by decide)).2 rfl).2.2 "2.5.0" "2.5.0" [] (by decide)

/-- C1: `GetToolStatus` sets `HasUpdate = true` exactly when the
installed-version probe succeeded with a non-empty version, the
latest-version resolution succeeded with a non-empty version, and the
comparator succeeded and ordered latest strictly after installed; in
every other case — unresolvable or unparsable versions included —
`HasUpdate` is `false`. -/
theorem getToolStatus_hasUpdate_iff (inp : StatusInputs) :
    (getToolStatus inp).HasUpdate = true ↔
      ∃ iv lv, inp.installedRes = .ok iv ∧ iv ≠ "" ∧
        inp.latestRes = .ok lv ∧ lv ≠ "" ∧ compareVersions iv lv = .ok true := by
  obtain ⟨ir, lr, env, install⟩ := inp
  have hb : ∀ i l, compareVersionsBool i l = true ↔ compareVersions i l = .ok true := by
    intro i l; cases h : compareVersions i l <;> simp [compareVersionsBool, h]
  cases ir with
  | error e =>
    cases lr with
    | error _ => simp [getToolStatus]
    | ok lv => by_cases hlv : lv = "" <;> simp [getToolStatus, hlv]
  | ok iv =>
    by_cases hiv : iv = ""
    · cases lr with
      | error _ => simp_all [getToolStatus]
      | ok lv => by_cases hlv : lv = "" <;> simp_all [getToolStatus, hlv]
    · cases lr with
      | error e => simp [getToolStatus, hiv]
      | ok lv =>
        by_cases hlv : lv = ""
        · simp [getToolStatus, hiv, hlv]
        · simp [getToolStatus, hiv, hlv, hb]

/-- The aggregator's writes never change the slice length. -/
theorem runAggregator_length (tools : List StatusInputs)
    (order : List (Fin tools.length)) (acc : List (Option ToolStatus)) :
    (runAggregator tools order acc).length = acc.length := by
  induction order generalizing acc with
  | nil => rfl
  | cons j rest ih =>
    rw [runAggregator, List.foldl_cons, ← runAggregator, ih, List.length_set]

/-- Slot `i` of the aggregator's result holds tool `i`'s status as soon
as task `i` occurs in the write order (or the slot already held it). -/
theorem runAggregator_getElem (tools : List StatusInputs)
    (order : List (Fin tools.length)) (acc : List (Option ToolStatus))
    (hlen : acc.length = tools.length) (i : Fin tools.length)
    (h : i ∈ order ∨ acc[i.val]? = some (some (getToolStatus (tools.get i)))) :
    (runAggregator tools order acc)[i.val]? =
      some (some (getToolStatus (tools.get i))) := by
  induction order generalizing acc with
  | nil =>
    rcases h with h | h
    · exact absurd h (List.not_mem_nil i)
    · exact h
  | cons j rest ih =>
    rw [runAggregator, List.foldl_cons, ← runAggregator]
    apply ih
    · rw [List.length_set]; exact hlen
    · by_cases hij : j = i
      · rw [hij]
        exact Or.inr (List.getElem?_set_self (by rw [hlen]; exact i.isLt))
      · rcases h with h | h
        · rcases List.mem_cons.mp h with h | h
          · exact absurd h.symm hij
          · exact Or.inl h
        · refine Or.inr ?_
          rw [List.getElem?_set_ne (fun hv => hij (Fin.ext hv))]
          exact h

/-- C2: for every input list of N tools and every order in which the N
concurrent tasks' writes land (each task writing only its own
pre-allocated slot), `GetAllToolStatus` returns exactly N records and the
record at index i is the status of the tool at input index i — including
when some tools' probes or remote fetches fail, since `GetToolStatus` is
total on those outcomes. -/
theorem getAllToolStatus_orderPreserving (tools : List StatusInputs)
    (order : List (Fin tools.length))
    (hall : ∀ i : Fin tools.length, i ∈ order) :
    getAllToolStatus tools order =
      tools.map (fun t => some (getToolStatus t)) := by
  apply List.ext_getElem?
  intro n
  by_cases hn : n < tools.length
  · have hw := runAggregator_getElem tools order
      (List.replicate tools.length none) (by simp) ⟨n, hn⟩
      (Or.inl (hall ⟨n, hn⟩))
    rw [getAllToolStatus]
    rw [hw, List.getElem?_map, List.getElem?_eq_getElem hn]
    rfl
  · have h1 : (getAllToolStatus tools order).length = tools.length := by
      rw [getAllToolStatus, runAggregator_length, List.length_replicate]
    rw [List.getElem?_eq_none (by omega),
      List.getElem?_eq_none (by rw [List.length_map]; omega)]

/-- Witness for C2: two tools — one with a failing remote fetch — whose
tasks land in reversed order still produce the two status records in
input order. -/
theorem getAllToolStatus_orderPreserving_witness :
    getAllToolStatus
      [{ installedRes := .ok "1.0.0", latestRes := .ok "1.1.0",
                                      env := ⟨.linux, fun _ => false⟩, install := [] },
       { installedRes := .ok "2.0.0", latestRes := .error "request timed out",
                                      env := ⟨.linux, fun _ => false⟩, install := [] }]
      [⟨1, by decide⟩, ⟨0, by decide⟩] =
      [some (getToolStatus { installedRes := .ok "1.0.0", latestRes := .ok "1.1.0",
                             env := ⟨.linux, fun _ => false⟩, install := [] }),
       some (getToolStatus { installedRes := .ok "2.0.0",
                             latestRes := .error "request timed out",
                             env := ⟨.linux, fun _ => false⟩, install := [] })] := by
  rw [getAllToolStatus_orderPreserving]
  · rfl
  · intro i
    fin_cases i <;> simp

/-! ### Symbolic evaluation of the version parser on dotted-numeric input -/

theorem takeWhile_append_all {α : Type} {p : α → Bool} {l₁ l₂ : List α}
    (h1 : ∀ a ∈ l₁, p a = true) (h2 : ∀ a, l₂.head? = some a → p a = false) :
    (l₁ ++ l₂).takeWhile p = l₁ := by
  induction l₁ with
  | nil =>
    cases l₂ with
    | nil => rfl
    | cons b bs => simp [List.takeWhile_cons, h2 b rfl]
  | cons a as ih =>
    have ha := h1 a (by simp)
    simp [List.takeWhile_cons, ha, ih (fun x hx => h1 x (by simp [hx]))]

theorem dropWhile_append_all {α : Type} {p : α → Bool} {l₁ l₂ : List α}
    (h1 : ∀ a ∈ l₁, p a = true) (h2 : ∀ a, l₂.head? = some a → p a = false) :
    (l₁ ++ l₂).dropWhile p = l₂ := by
  induction l₁ with
  | nil =>
    cases l₂ with
    | nil => rfl
    | cons b bs => simp [List.dropWhile_cons, h2 b rfl]
  | cons a as ih =>
    have ha := h1 a (by simp)
    simp [List.dropWhile_cons, ha, ih (fun x hx => h1 x (by simp [hx]))]

theorem span_append_all {α : Type} {p : α → Bool} {l₁ l₂ : List α}
    (h1 : ∀ a ∈ l₁, p a = true) (h2 : ∀ a, l₂.head? = some a → p a = false) :
    (l₁ ++ l₂).span p = (l₁, l₂) := by
  rw [List.span_eq_take_drop, takeWhile_append_all h1 h2, dropWhile_append_all h1 h2]

theorem isEmpty_false_of_ne_nil {α : Type} {l : List α} (h : l ≠ []) :
    l.isEmpty = false := by
  cases l <;> simp_all

/-- A dot is not a digit, so a field boundary stops the digit span. -/
theorem head_dot_not_digit (cs : List Char) :
    ∀ a, (('.' :: cs) : List Char).head? = some a → Char.isDigit a = false := by
  intro a h
  simp only [List.head?_cons, Option.some.injEq] at h
  rw [← h]; decide

theorem head_nil_none {α : Type} :
    ∀ a : α, ([] : List α).head? = some a → False := by
  intro a h; simp at h

theorem parseUint64_of_digitField {f : List Char} (h : DigitField f) :
    parseUint64 f = some (digitsVal f) := by
  obtain ⟨h1, _, h3⟩ := h
  simp only [parseUint64, isEmpty_false_of_ne_nil h1, Bool.false_eq_true,
    if_false, if_pos h3]

theorem parseDotNum_dot_digits {f r : List Char} (hf : DigitField f)
    (hr : ∀ a, r.head? = some a → Char.isDigit a = false) :
    parseDotNum ('.' :: (f ++ r)) = (some f, r) := by
  obtain ⟨h1, h2, _⟩ := hf
  have htake := takeWhile_append_all h2 hr
  have hdrop := dropWhile_append_all h2 hr
  simp [parseDotNum, List.span_eq_take_drop, htake, hdrop,
    isEmpty_false_of_ne_nil h1]

theorem parseDotNum_nil : parseDotNum [] = (none, []) := rfl

theorem parseTail_nil : parseTail [] = some ("", "") := rfl

theorem parseCore_one {f1 : List Char} (h1 : DigitField f1) :
    parseCore f1 = some ⟨digitsVal f1, 0, 0, "", ""⟩ := by
  have htake : f1.takeWhile Char.isDigit = f1 := by
    have := @takeWhile_append_all Char Char.isDigit f1 [] h1.2.1
      (fun a ha => absurd ha (by simp))
    simpa using this
  have hdrop : f1.dropWhile Char.isDigit = [] := by
    have := @dropWhile_append_all Char Char.isDigit f1 [] h1.2.1
      (fun a ha => absurd ha (by simp))
    simpa using this
  simp [parseCore, List.span_eq_take_drop, htake, hdrop,
    isEmpty_false_of_ne_nil h1.1, parseDotNum_nil, parseTail_nil,
    parseUint64_of_digitField h1]

theorem parseCore_two {f1 f2 : List Char} (h1 : DigitField f1)
    (h2 : DigitField f2) :
    parseCore (f1 ++ '.' :: f2) =
      some ⟨digitsVal f1, digitsVal f2, 0, "", ""⟩ := by
  have htake := takeWhile_append_all h1.2.1 (head_dot_not_digit f2)
  have hdrop := dropWhile_append_all h1.2.1 (head_dot_not_digit f2)
  have hdot : parseDotNum ('.' :: f2) = (some f2, []) := by
    have := parseDotNum_dot_digits (r := ([] : List Char)) h2
      (fun a ha => absurd ha (by simp))
    simpa using this
  simp [parseCore, List.span_eq_take_drop, htake, hdrop,
    isEmpty_false_of_ne_nil h1.1, hdot, parseDotNum_nil, parseTail_nil,
    parseUint64_of_digitField h1, parseUint64_of_digitField h2]

theorem parseCore_three {f1 f2 f3 : List Char} (h1 : DigitField f1)
    (h2 : DigitField f2) (h3 : DigitField f3) :
    parseCore (f1 ++ '.' :: (f2 ++ '.' :: f3)) =
      some ⟨digitsVal f1, digitsVal f2, digitsVal f3, "", ""⟩ := by
  have hstop : ∀ a, (('.' :: (f2 ++ '.' :: f3)) : List Char).head? = some a →
      Char.isDigit a = false := by
    intro a ha
    simp only [List.head?_cons, Option.some.injEq] at ha
    rw [← ha]; decide
  have htake := takeWhile_append_all h1.2.1 hstop
  have hdrop := dropWhile_append_all h1.2.1 hstop
  have hdot1 : parseDotNum ('.' :: (f2 ++ '.' :: f3)) = (some f2, '.' :: f3) :=
    parseDotNum_dot_digits h2 (head_dot_not_digit f3)
  have hdot2 : parseDotNum ('.' :: f3) = (some f3, []) := by
    have := parseDotNum_dot_digits (r := ([] : List Char)) h3
      (fun a ha => absurd ha (by simp))
    simpa using this
  simp [parseCore, List.span_eq_take_drop, htake, hdrop,
    isEmpty_false_of_ne_nil h1.1, hdot1, hdot2, parseTail_nil,
    parseUint64_of_digitField h1, parseUint64_of_digitField h2,
    parseUint64_of_digitField h3]

theorem trimPrefixV_not_v {cs : List Char}
    (h : ∀ c, cs.head? = some c → c ≠ 'v') :
    trimPrefixV (String.mk cs) = String.mk cs := by
  cases cs with
  | nil => rfl
  | cons c rest => simp [trimPrefixV, h c rfl]

theorem semverNewVersion_not_v {cs : List Char}
    (h : ∀ c, cs.head? = some c → c ≠ 'v') :
    semverNewVersion (String.mk cs) = parseCore cs := by
  cases cs with
  | nil => rfl
  | cons c rest => simp [semverNewVersion, h c rfl]

/-- `GreaterThan` on prerelease-free versions is the strict field-by-field
lexicographic order read right-to-left of the comparator's arguments. -/
theorem semverGreaterThan_eq_lexLt (a1 a2 a3 b1 b2 b3 : Nat) :
    semverGreaterThan ⟨b1, b2, b3, "", ""⟩ ⟨a1, a2, a3, "", ""⟩ =
      lexLtNat [a1, a2, a3] [b1, b2, b3] := by
  rw [Bool.eq_iff_iff]
  simp only [semverGreaterThan, semverCompare, compareSegment, lexLtNat,
    decide_eq_true_eq, Bool.or_eq_true, Bool.and_eq_true]
  split_ifs <;> simp_all <;> omega

theorem intercalate_one (f1 : List Char) :
    List.intercalate ['.'] [f1] = f1 := by
  simp [List.intercalate]

theorem intercalate_two (f1 f2 : List Char) :
    List.intercalate ['.'] [f1, f2] = f1 ++ '.' :: f2 := by
  simp [List.intercalate]

theorem intercalate_three (f1 f2 f3 : List Char) :
    List.intercalate ['.'] [f1, f2, f3] = f1 ++ '.' :: (f2 ++ '.' :: f3) := by
  simp [List.intercalate]

theorem head_ne_v_of_digits {f s : List Char} (hf : DigitField f) :
    ∀ c, ((f ++ s).head? = some c) → c ≠ 'v' := by
  obtain ⟨h1, h2, _⟩ := hf
  cases f with
  | nil => exact absurd rfl h1
  | cons a t =>
    intro c hc he
    simp only [List.cons_append, List.head?_cons, Option.some.injEq] at hc
    have hd := h2 a (by simp)
    rw [hc, he] at hd
    exact absurd hd (by decide)

/-- A valid 1–3-field dotted-numeric string survives the `v`-strip
unchanged and parses to the zero-padded field values with no prerelease
and no metadata. -/
theorem semverNewVersion_of_fields (fs : List (List Char))
    (hf : ValidFields fs) :
    ∃ v1 v2 v3, semverNewVersion (renderFields fs) = some ⟨v1, v2, v3, "", ""⟩ ∧
      padTo 3 (fieldVals fs) = [v1, v2, v3] ∧
      trimPrefixV (renderFields fs) = renderFields fs := by
  obtain ⟨hlen1, hlen3, hfields⟩ := hf
  rcases fs with _ | ⟨f1, _ | ⟨f2, _ | ⟨f3, rest⟩⟩⟩
  · simp at hlen1
  · have hd1 : DigitField f1 := hfields f1 (by simp)
    have hhead : ∀ c, (f1 : List Char).head? = some c → c ≠ 'v' := by
      have := head_ne_v_of_digits (s := []) hd1
      rwa [List.append_nil] at this
    refine ⟨digitsVal f1, 0, 0, ?_, by simp [padTo, fieldVals], ?_⟩
    · rw [renderFields, intercalate_one, semverNewVersion_not_v hhead,
        parseCore_one hd1]
    · rw [renderFields, intercalate_one, trimPrefixV_not_v hhead]
  · have hd1 : DigitField f1 := hfields f1 (by simp)
    have hd2 : DigitField f2 := hfields f2 (by simp)
    have hhead := head_ne_v_of_digits (s := '.' :: f2) hd1
    refine ⟨digitsVal f1, digitsVal f2, 0, ?_, by simp [padTo, fieldVals], ?_⟩
    · rw [renderFields, intercalate_two, semverNewVersion_not_v hhead,
        parseCore_two hd1 hd2]
    · rw [renderFields, intercalate_two, trimPrefixV_not_v hhead]
  · rcases rest with _ | ⟨f4, rest⟩
    · have hd1 : DigitField f1 := hfields f1 (by simp)
      have hd2 : DigitField f2 := hfields f2 (by simp)
      have hd3 : DigitField f3 := hfields f3 (by simp)
      have hhead := head_ne_v_of_digits (s := '.' :: (f2 ++ '.' :: f3)) hd1
      refine ⟨digitsVal f1, digitsVal f2, digitsVal f3, ?_,
        by simp [padTo, fieldVals], ?_⟩
      · rw [renderFields, intercalate_three, semverNewVersion_not_v hhead,
          parseCore_three hd1 hd2 hd3]
      · rw [renderFields, intercalate_three, trimPrefixV_not_v hhead]
    · simp at hlen3

/-- C3: for every pair of valid dotted-numeric version strings (one to
three non-empty numeric fields, values within the comparator's 64-bit
parse width), `CompareVersions` succeeds and reports an update exactly
when the latest version is strictly greater under field-by-field numeric
comparison with missing trailing fields treated as zero; and the three
concrete cases of the spec hold. -/
theorem compareVersions_dottedNumeric_order (fs gs : List (List Char))
    (hf : ValidFields fs) (hg : ValidFields gs) :
    (compareVersions (renderFields fs) (renderFields gs) =
      .ok (lexLtNat (padTo 3 (fieldVals fs)) (padTo 3 (fieldVals gs)))) ∧
    compareVersions "1.2.3" "1.2.3" = .ok false ∧
    compareVersions "1.2.3" "1.3.0" = .ok true ∧
    compareVersions "2.0.0" "1.9.9" = .ok false := by
  obtain ⟨a1, a2, a3, hpa, hva, hta⟩ := semverNewVersion_of_fields fs hf
  obtain ⟨b1, b2, b3, hpb, hvb, htb⟩ := semverNewVersion_of_fields gs hg
  refine ⟨?_, rfl, rfl, rfl⟩
  simp only [compareVersions, hta, htb, hpa, hpb]
  rw [hva, hvb, semverGreaterThan_eq_lexLt]

/-- Witness for C3: `1.2.3` against `1.3.0` — valid fields, and the
comparator reports an update. -/
theorem compareVersions_dottedNumeric_order_witness :
    compareVersions (renderFields [['1'], ['2'], ['3']])
      (renderFields [['1'], ['3'], ['0']]) = .ok true :=
  (compareVersions_dottedNumeric_order [['1'], ['2'], ['3']]
      [['1'], ['3'], ['0']] (by decide) (by decide)).1.trans rfl

/-- C8 counterexample: the comparator's acceptance is not the
dotted-numeric grammar, in both directions — `1.0.0-beta` is not
dotted-numeric yet compares without error, while `1.2.3.4` is
dotted-numeric yet produces an error (against `1.2.3.5`). -/
theorem compareVersions_nonDottedNumeric_ok_cex :
    isDottedNumericStr (trimPrefixV "1.0.0-beta") = false ∧
    (compareVersions "1.0.0-beta" "1.0.0").isOk = true ∧
    isDottedNumericStr (trimPrefixV "1.2.3.4") = true ∧
    (compareVersions "1.2.3.4" "1.2.3.5").isOk = false := by
  refine ⟨rfl, rfl, rfl, rfl⟩

/-- C8 (amended): `CompareVersions` first strips an optional leading `v`
from each input and returns an error exactly when at least one stripped
input is rejected by the library's loose semantic-version grammar (which
accepts every 1–3-field dotted-numeric string but also prerelease/build
suffixes, and rejects four-field strings); whenever it errors, the
update flag a caller derives by ignoring the error is `false`. -/
theorem compareVersions_error_characterization (a b : String) :
    ((compareVersions a b).isOk =
      ((semverNewVersion (trimPrefixV a)).isSome &&
       (semverNewVersion (trimPrefixV b)).isSome)) ∧
    (∀ fs, ValidFields fs → (semverNewVersion (renderFields fs)).isSome = true) ∧
    ((compareVersions a b).isOk = false → compareVersionsBool a b = false) := by
  refine ⟨?_, ?_, ?_⟩
  · simp only [compareVersions]
    cases h1 : semverNewVersion (trimPrefixV a) <;>
      cases h2 : semverNewVersion (trimPrefixV b) <;>
      simp [Except.isOk, Except.toBool, h1, h2]
  · intro fs hfs
    obtain ⟨v1, v2, v3, hp, _, _⟩ := semverNewVersion_of_fields fs hfs
    simp [hp]
  · intro h
    unfold compareVersionsBool
    cases hc : compareVersions a b with
    | ok v => rw [hc] at h; simp [Except.isOk, Except.toBool] at h
    | error e => rfl

/-- Witness for C8 (amended): `unknown` is rejected, so the comparison
errs and the derived flag is false; `2.0.0` is accepted. -/
theorem compareVersions_error_characterization_witness :
    (compareVersions "unknown" "1.0.0").isOk = false ∧
    compareVersionsBool "unknown" "1.0.0" = false ∧
    (semverNewVersion (renderFields [['2'], ['0'], ['0']])).isSome = true :=
  ⟨(compareVersions_error_characterization "unknown" "1.0.0").1.trans rfl,
   (compareVersions_error_characterization "unknown" "1.0.0").2.2
     ((compareVersions_error_characterization "unknown" "1.0.0").1.trans rfl),
   (compareVersions_error_characterization "unknown" "1.0.0").2.1
     [['2'], ['0'], ['0']] (by decide)⟩

end AgentHelper
